import Mathlib

/-!
Verification of the two analysis pipelines of the polymarket-whale-tracker
repository: the losing-trade exit-window analysis (ml_peak_exit.py) and the
opportunity win predictor (ml_win_predictor.py).

Timestamps, prices and probabilities are modelled as rationals; nullable
database columns are modelled as Option values. Machine-learning library
primitives that the scripts call are embedded by their documented value-level
semantics: sklearn LabelEncoder.fit stores the distinct input values in
ascending sorted order (numpy unique) and transform maps each value to the
index of its class, and pandas cut with ten equal-width bins over the unit
interval classifies a value into the half-open interval it falls in, the
lowest interval being closed on the left.
-/

namespace WhaleTracker

/-! ## Label encoding (sklearn LabelEncoder, used for the city column) -/

/-- Helper: the distinct values of a list, in first-seen order. -/
def firstSeen {α : Type} [DecidableEq α] : List α → List α
  | [] => []
  | x :: xs => x :: (firstSeen xs).filter (fun y => decide (y ≠ x))

/-- The classes stored by LabelEncoder.fit: the distinct input values
in ascending sorted order, as numpy unique produces them. -/
def label_classes {α : Type} [LinearOrder α] [DecidableEq α] (xs : List α) : List α :=
  (firstSeen xs).insertionSort (· ≤ ·)

/-- LabelEncoder.fit_transform: each value of the batch is mapped to the
index of its value in the sorted distinct-value array. This is the
city_enc column of both scripts. -/
def le_fit_transform {α : Type} [LinearOrder α] [DecidableEq α] (xs : List α) : List ℕ :=
  xs.map (fun x => (label_classes xs).indexOf x)

/-- The city_mapping dictionary built in engineer_features: each stored
class paired with its transform image. -/
def le_city_mapping {α : Type} [LinearOrder α] [DecidableEq α] (xs : List α) : List (α × ℕ) :=
  (label_classes xs).map (fun c => (c, (label_classes xs).indexOf c))

/-- Encoding following the words of the specification, for comparison with
the one the code computes: codes assigned by first-seen order across the
batch, the first distinct value receiving code 0, the next previously
unseen value code 1, and so on. -/
def spec_firstSeenCodes {α : Type} [DecidableEq α] (xs : List α) : List ℕ :=
  xs.map (fun x => (firstSeen xs).indexOf x)

/-! ## Evaluator-log parsing and the window-duration analyzer (ml_peak_exit.py) -/

/-- A raw evaluator_log entry as stored in the database: any of the three
fields may be absent or null. -/
structure RawEntry where
  ts : Option ℚ
  bid : Option ℚ
  ask : Option ℚ
  deriving DecidableEq, Repr

/-- A parsed log entry produced by parse_evaluator_log. -/
structure LogEntry where
  ts : ℚ
  bid : ℚ
  ask : ℚ
  deriving DecidableEq, Repr

/-- parse_evaluator_log: a null log yields the empty list; otherwise every
entry whose ts and bid are both present is kept, with a missing ask
defaulting to 0, and every other entry is skipped. -/
def parse_evaluator_log : Option (List RawEntry) → List LogEntry
  | none => []
  | some l =>
    l.filterMap (fun e =>
      match e.ts, e.bid with
      | some t, some b => some ⟨t, b, e.ask.getD 0⟩
      | _, _ => none)

/-- compute_window_duration: span in minutes from the first to the last
log entry whose bid is at or above the threshold, 0 when the log is empty
or no entry qualifies. First and last are taken by list position. -/
def compute_window_duration (log_entries : List LogEntry) (threshold : ℚ) : ℚ :=
  if log_entries.isEmpty then 0
  else
    let above_entries := log_entries.filter (fun e => decide (e.bid ≥ threshold))
    match above_entries.head?, above_entries.getLast? with
    | some f, some l => (l.ts - f.ts) / 60
    | _, _ => 0

/-! ## The losing-trade loader and peak metrics (ml_peak_exit.py) -/

/-- A row of the trades table, with nullable columns as Option. -/
structure TradeRecord where
  city : String
  range_type : String
  side : String
  status : String
  won : Option Bool
  entry_ask : Option ℚ
  entry_bid : Option ℚ
  entry_spread : Option ℚ
  entry_probability : Option ℚ
  entry_edge_pct : Option ℚ
  cost : Option ℚ
  shares : Option ℚ
  max_price_seen : Option ℚ
  pnl : Option ℚ
  hours_to_resolution : Option ℚ
  evaluator_log : Option (List RawEntry)
  deriving DecidableEq, Repr

/-- The WHERE clause of the get_losing_trades query: resolved or exited,
lost, and max_price_seen, entry_ask and pnl all non-null. -/
def get_losing_trades_pred (r : TradeRecord) : Bool :=
  (r.status == "resolved" || r.status == "exited")
    && r.won == some false
    && r.max_price_seen.isSome
    && r.entry_ask.isSome
    && r.pnl.isSome

/-- get_losing_trades: the rows of the trades table satisfying the query
predicate. -/
def get_losing_trades (rows : List TradeRecord) : List TradeRecord :=
  rows.filter get_losing_trades_pred

/-- The peak_multiple column: max_price_seen divided by entry_ask, null when
either operand is null. -/
def peak_multiple (r : TradeRecord) : Option ℚ :=
  match r.max_price_seen, r.entry_ask with
  | some m, some a => some (m / a)
  | _, _ => none

/-! ## Model-stage guards (both pipelines) -/

/-- Outcome of the model-fitting stage of a pipeline run. -/
inductive FitOutcome where
  | fitted : FitOutcome
  | skipped : String → FitOutcome
  deriving DecidableEq, Repr

/-- The peak-exit model stage, keyed by the number of rows left after the
feature dropna: fewer than 5 rows prints the skip notice and does not fit,
otherwise the LightGBM model is fitted. -/
def peakExit_model_stage (n : ℕ) : FitOutcome :=
  if n < 5 then .skipped "Too few samples for meaningful ML - skipping model training."
  else .fitted

/-- The win-predictor model stage, keyed by the number of training rows left
after the feature dropna: main fits unconditionally, with no sample-count
guard anywhere between the split and model.fit. -/
def winPredictor_model_stage (_nTrain : ℕ) : FitOutcome :=
  .fitted

/-! ## The win-predictor data model and feature engineering (ml_win_predictor.py) -/

/-- A row of the opportunities table as returned by get_data. The query
requires would_have_won, ask and our_probability non-null, so those fields
are plain values; the remaining numeric columns stay nullable. Timestamps
are epoch seconds in UTC. -/
structure RawOpp where
  city : String
  platform : String
  range_type : String
  side : String
  ask : ℚ
  bid : Option ℚ
  spread : Option ℚ
  our_probability : ℚ
  ensemble_std_dev : Option ℚ
  hours_to_resolution : Option ℚ
  range_width : Option ℚ
  would_have_won : Bool
  created_at : ℚ
  deriving DecidableEq, Repr

/-- Civil month (1 to 12) of a day count relative to 1970-01-01, by the
standard days-to-civil conversion. -/
def civil_month (z : ℤ) : ℕ :=
  let z2 := z + 719468
  let era := (if 0 ≤ z2 then z2 else z2 - 146096) / 146097
  let doe := z2 - era * 146097
  let yoe := (doe - doe / 1460 + doe / 36524 - doe / 146096) / 365
  let doy := doe - (365 * yoe + yoe / 4 - yoe / 100)
  let mp := (5 * doy + 2) / 153
  (mp + (if mp < 10 then 3 else -9)).toNat

/-- Month extracted from an epoch-seconds timestamp, as pandas dt.month. -/
def dt_month (t : ℚ) : ℕ :=
  civil_month (⌊t / 86400⌋)

/-- Hour of day (0 to 23) extracted from an epoch-seconds timestamp, as
pandas dt.hour. -/
def dt_hour (t : ℚ) : ℕ :=
  ((⌊t / 3600⌋) % 24).toNat

/-- An engineered row: the original columns plus the derived feature and
target columns added by engineer_features. -/
structure FeatOpp where
  raw : RawOpp
  target : ℕ
  range_type_enc : ℕ
  side_enc : ℕ
  city_enc : ℕ
  month : ℕ
  hour_of_day : ℕ
  ask_x_hours : Option ℚ
  prob_minus_ask : ℚ
  deriving DecidableEq, Repr

/-- engineer_features: works on a copy of the input frame, adds the target
label, the indicator encodings of range_type and side, the batch-relative
LabelEncoder city code, month and hour of the creation timestamp, and the
two interaction terms; returns the engineered frame together with the
city_mapping dictionary. -/
def engineer_features (df : List RawOpp) : List FeatOpp × List (String × ℕ) :=
  let classes := label_classes (df.map (fun r => r.city))
  (df.map (fun r =>
    { raw := r
      target := if r.would_have_won then 1 else 0
      range_type_enc := if r.range_type == "unbounded" then 1 else 0
      side_enc := if r.side == "YES" then 1 else 0
      city_enc := classes.indexOf r.city
      month := dt_month r.created_at
      hour_of_day := dt_hour r.created_at
      ask_x_hours := r.hours_to_resolution.map (fun h => r.ask * h)
      prob_minus_ask := r.our_probability - r.ask }),
   classes.map (fun c => (c, classes.indexOf c)))

/-- The fixed train/test cutoff of main: 2026-02-20 00:00 UTC in epoch
seconds. -/
def split_date : ℚ := 1771545600

/-- The training partition: rows created strictly before the cutoff. -/
def win_train (rows : List FeatOpp) : List FeatOpp :=
  rows.filter (fun r => decide (r.raw.created_at < split_date))

/-- The evaluation partition: rows created at or after the cutoff. -/
def win_test (rows : List FeatOpp) : List FeatOpp :=
  rows.filter (fun r => decide (r.raw.created_at ≥ split_date))

/-- The FEATURES columns of an engineered row, in the order of the FEATURES
list of the script; columns that can be null appear as they are, the ones
that cannot are wrapped in some. -/
def FEATURES_of (r : FeatOpp) : List (Option ℚ) :=
  [some r.raw.ask, r.raw.bid, r.raw.spread, some r.raw.our_probability,
   r.raw.ensemble_std_dev, r.raw.hours_to_resolution, r.raw.range_width,
   some (r.range_type_enc : ℚ), some (r.side_enc : ℚ), some (r.city_enc : ℚ),
   some (r.month : ℚ), some (r.hour_of_day : ℚ), r.ask_x_hours,
   some r.prob_minus_ask]

/-- dropna over the FEATURES columns: a row survives exactly when every
FEATURES column is non-null. -/
def win_dropna (rows : List FeatOpp) : List FeatOpp :=
  rows.filter (fun r => (FEATURES_of r).all (fun v => v.isSome))

/-! ## The peak-exit model frame (ml_peak_exit.py, part B) -/

/-- A df_model row of the peak-exit script: the trade columns plus the
encodings and target added before the dropna. -/
structure PeakModelRow where
  trade : TradeRecord
  range_type_enc : ℕ
  side_enc : ℕ
  city_enc : ℕ
  target : ℕ
  deriving DecidableEq, Repr

/-- The feat_cols columns of a df_model row, in script order. -/
def feat_cols_of (r : PeakModelRow) : List (Option ℚ) :=
  [r.trade.entry_ask, r.trade.entry_probability, r.trade.entry_edge_pct,
   r.trade.entry_spread, r.trade.cost, some (r.range_type_enc : ℚ),
   some (r.side_enc : ℚ), some (r.city_enc : ℚ),
   r.trade.hours_to_resolution]

/-- dropna over the feat_cols columns of the peak-exit model frame. -/
def peak_dropna (rows : List PeakModelRow) : List PeakModelRow :=
  rows.filter (fun r => (feat_cols_of r).all (fun v => v.isSome))

/-! ## Calibration binning (ml_win_predictor.py, section 5) -/

/-- pandas cut over the eleven edges linspace 0 1, with include_lowest: a
value in the unit interval lands in the interval whose right edge is the
first of 1/10, 2/10, ..., 1 at or above it, the first interval being closed
at 0; values outside the unit interval get no bin. -/
def calibrationBin (p : ℚ) : Option ℕ :=
  if p < 0 then none
  else if p ≤ 1/10 then some 0
  else if p ≤ 2/10 then some 1
  else if p ≤ 3/10 then some 2
  else if p ≤ 4/10 then some 3
  else if p ≤ 5/10 then some 4
  else if p ≤ 6/10 then some 5
  else if p ≤ 7/10 then some 6
  else if p ≤ 8/10 then some 7
  else if p ≤ 9/10 then some 8
  else if p ≤ 1 then some 9
  else none

/-- Size of one calibration group: the number of predictions classified
into bin i. -/
def binCount (preds : List ℚ) (i : ℕ) : ℕ :=
  (preds.filter (fun p => calibrationBin p == some i)).length

/-! ## Concrete sample rows used in witnesses and counterexamples -/

/-- A sample opportunity row with the given creation timestamp; every
numeric field is an integer-valued rational so that equalities on it are
kernel-decidable. -/
def mkRawOpp (c : ℚ) : RawOpp :=
  { city := "seoul", platform := "polymarket", range_type := "bounded",
    side := "YES", ask := 1, bid := some 1, spread := some 0,
    our_probability := 1, ensemble_std_dev := some 0,
    hours_to_resolution := some 24, range_width := some 1,
    would_have_won := true, created_at := c }

/-- A sample engineered row with the given creation timestamp, with literal
derived columns. -/
def mkFeatOpp (c : ℚ) : FeatOpp :=
  { raw := mkRawOpp c, target := 1, range_type_enc := 0, side_enc := 1,
    city_enc := 0, month := 1, hour_of_day := 0, ask_x_hours := some 24,
    prob_minus_ask := 0 }

/-- A losing trade whose entry_ask is present but equal to zero; it
satisfies every condition of the loader query. -/
def zero_ask_trade : TradeRecord :=
  { city := "seoul", range_type := "bounded", side := "YES",
    status := "resolved", won := some false, entry_ask := some 0,
    entry_bid := some 0, entry_spread := some 0,
    entry_probability := some 0, entry_edge_pct := some 0, cost := some 1,
    shares := some 10, max_price_seen := some 1, pnl := some (-5),
    hours_to_resolution := some 3, evaluator_log := none }

/-- A peak-exit model row built over the zero-ask trade, with literal
encodings; its feat_cols are all non-null. -/
def sample_peak_row : PeakModelRow :=
  { trade := zero_ask_trade, range_type_enc := 0, side_enc := 1,
    city_enc := 0, target := 0 }

/-! ## Helper lemmas on first-seen lists and label classes -/

theorem mem_firstSeen {α : Type} [DecidableEq α] {x : α} :
    ∀ {xs : List α}, x ∈ xs → x ∈ firstSeen xs := by
  intro xs
  induction xs with
  | nil => intro h; simp at h
  | cons a t ih =>
    intro hx
    rcases List.mem_cons.mp hx with h | h
    · subst h; exact List.mem_cons_self x _
    · by_cases hxa : x = a
      · subst hxa; exact List.mem_cons_self x _
      · exact List.mem_cons_of_mem a (List.mem_filter.mpr ⟨ih h, by simpa using hxa⟩)

theorem firstSeen_nodup {α : Type} [DecidableEq α] :
    ∀ (xs : List α), (firstSeen xs).Nodup := by
  intro xs
  induction xs with
  | nil => exact List.nodup_nil
  | cons a t ih =>
    refine List.nodup_cons.mpr ⟨?_, ih.filter _⟩
    intro hmem
    have := (List.mem_filter.mp hmem).2
    simp at this

theorem sorted_nodup_indexOf_eq_countP {α : Type} [LinearOrder α] [DecidableEq α] :
    ∀ {l : List α} {x : α}, l.Sorted (· ≤ ·) → l.Nodup → x ∈ l →
      l.indexOf x = l.countP (fun y => decide (y < x)) := by
  intro l
  induction l with
  | nil => intro x _ _ hx; simp at hx
  | cons a t ih =>
    intro x hs hnd hx
    rw [List.sorted_cons] at hs
    rw [List.nodup_cons] at hnd
    rw [List.countP_cons]
    by_cases hxa : x = a
    · subst hxa
      rw [List.indexOf_cons_self]
      have h0 : t.countP (fun y => decide (y < x)) = 0 := by
        rw [List.countP_eq_zero]
        intro b hb
        simpa using not_lt.mpr (hs.1 b hb)
      simp [h0]
    · have hxt : x ∈ t := by
        rcases List.mem_cons.mp hx with h | h
        · exact absurd h hxa
        · exact h
      have hax : a ≠ x := fun h => hnd.1 (h ▸ hxt)
      have ha_lt : a < x := lt_of_le_of_ne (hs.1 x hxt) hax
      rw [List.indexOf_cons_ne _ hax, ih hs.2 hnd.2 hxt]
      simp [ha_lt]

theorem label_classes_perm {α : Type} [LinearOrder α] [DecidableEq α] (xs : List α) :
    List.Perm (label_classes xs) (firstSeen xs) :=
  List.perm_insertionSort _ _

theorem label_classes_sorted {α : Type} [LinearOrder α] [DecidableEq α] (xs : List α) :
    (label_classes xs).Sorted (· ≤ ·) :=
  List.sorted_insertionSort _ _

theorem label_classes_nodup {α : Type} [LinearOrder α] [DecidableEq α] (xs : List α) :
    (label_classes xs).Nodup :=
  (label_classes_perm xs).nodup_iff.mpr (firstSeen_nodup xs)

theorem not_seoul_le_austin : ¬ (("seoul" : String) ≤ "austin") := by
  rw [String.le_iff_toList_le]; decide

theorem label_classes_seoul_austin :
    label_classes ["seoul", "austin"] = ["austin", "seoul"] := by
  have h1 : firstSeen ["seoul", "austin"] = ["seoul", "austin"] := by decide
  rw [label_classes, h1]
  simp [List.insertionSort, List.orderedInsert, not_seoul_le_austin]
  decide

/-! ## Claims about the city encoding -/

/-- C1, counterexample. The first distinct city of the batch, seoul, does
not receive code 0: LabelEncoder assigns codes by ascending sorted order of
the distinct values, so the batch with seoul first and austin second is
encoded as codes 1 and 0, while first-seen-order encoding as the
specification states it would produce codes 0 and 1. -/
theorem city_codes_not_first_seen_order :
    le_fit_transform ["seoul", "austin"] = [1, 0] ∧
      spec_firstSeenCodes ["seoul", "austin"] = [0, 1] ∧
      le_fit_transform ["seoul", "austin"] ≠
        spec_firstSeenCodes ["seoul", "austin"] := by
  have h : le_fit_transform ["seoul", "austin"] = [1, 0] := by
    rw [le_fit_transform, label_classes_seoul_austin]
    decide
  refine ⟨h, by decide, ?_⟩
  rw [h]
  decide

/-- C1, amended. For every batch, the city code of each record equals the
number of distinct city values of the batch that are strictly smaller than
its own city: codes are assigned by ascending sorted order of the distinct
values of the current batch, the smallest distinct value receiving code 0,
the next code 1, and so on (batch-relative, as the specification notes, but
sorted order rather than first-seen order). -/
theorem city_codes_by_sorted_rank {α : Type} [LinearOrder α] [DecidableEq α] (xs : List α) :
    le_fit_transform xs =
      xs.map (fun x => (firstSeen xs).countP (fun y => decide (y < x))) := by
  unfold le_fit_transform
  apply List.map_congr_left
  intro x hx
  have hmem : x ∈ label_classes xs :=
    (label_classes_perm xs).mem_iff.mpr (mem_firstSeen hx)
  rw [sorted_nodup_indexOf_eq_countP (label_classes_sorted xs)
    (label_classes_nodup xs) hmem]
  exact (label_classes_perm xs).countP_eq _

/-! ## Helper lemmas on the window-duration analyzer -/

theorem cwd_of_filter_nil {log : List LogEntry} {th : ℚ}
    (h : log.filter (fun e => decide (e.bid ≥ th)) = []) :
    compute_window_duration log th = 0 := by
  cases log with
  | nil => rfl
  | cons a t => simp [compute_window_duration, h]

theorem cwd_of_head?_getLast? {log : List LogEntry} {th : ℚ} {f l : LogEntry}
    (hf : (log.filter (fun e => decide (e.bid ≥ th))).head? = some f)
    (hl : (log.filter (fun e => decide (e.bid ≥ th))).getLast? = some l) :
    compute_window_duration log th = (l.ts - f.ts) / 60 := by
  cases log with
  | nil => simp at hf
  | cons a t => simp [compute_window_duration, hf, hl]

theorem sorted_rat_head?_le_getLast? {l : List ℚ}
    (hs : l.Sorted (· ≤ ·)) {a b : ℚ}
    (ha : l.head? = some a) (hb : l.getLast? = some b) : a ≤ b := by
  cases l with
  | nil => simp at ha
  | cons x t =>
    have hax : x = a := by simpa using ha
    subst hax
    obtain ⟨hne, hbe⟩ := List.mem_getLast?_eq_getLast (l := x :: t) (x := b) hb
    have hbmem : b ∈ x :: t := hbe ▸ List.getLast_mem hne
    rcases List.mem_cons.mp hbmem with h | h
    · exact le_of_eq h.symm
    · exact List.rel_of_sorted_cons hs b h

/-! ## Claims about the window-duration analyzer -/

/-- C2. The window-duration computation filters the log to entries with bid
at or above the threshold; an empty log or no qualifying entry yields 0;
otherwise the result is the timestamp of the last qualifying entry minus
the timestamp of the first qualifying entry, in minutes, so entries below
the threshold lying between two qualifying entries do not reduce the
result; in particular, for the log of bids 0.40, 0.65, 0.70, 0.50 at times
t0, t1, t2, t3 with threshold 0.60 the duration is t2 minus t1 in
minutes. -/
theorem window_duration_spec :
    (∀ th : ℚ, compute_window_duration [] th = 0) ∧
    (∀ (log : List LogEntry) (th : ℚ),
        log.filter (fun e => decide (e.bid ≥ th)) = [] →
        compute_window_duration log th = 0) ∧
    (∀ (log : List LogEntry) (th : ℚ) (f l : LogEntry),
        (log.filter (fun e => decide (e.bid ≥ th))).head? = some f →
        (log.filter (fun e => decide (e.bid ≥ th))).getLast? = some l →
        compute_window_duration log th = (l.ts - f.ts) / 60) ∧
    (∀ t0 t1 t2 t3 : ℚ,
        compute_window_duration
          [⟨t0, 2/5, 0⟩, ⟨t1, 13/20, 0⟩, ⟨t2, 7/10, 0⟩, ⟨t3, 1/2, 0⟩]
          (3/5) = (t2 - t1) / 60) := by
  refine ⟨fun th => rfl, fun log th h => cwd_of_filter_nil h,
    fun log th f l hf hl => cwd_of_head?_getLast? hf hl, fun t0 t1 t2 t3 => ?_⟩
  have h1 : ¬((2/5 : ℚ) ≥ 3/5) := by norm_num
  have h2 : ((13/20 : ℚ) ≥ 3/5) := by norm_num
  have h3 : ((7/10 : ℚ) ≥ 3/5) := by norm_num
  have h4 : ¬((1/2 : ℚ) ≥ 3/5) := by norm_num
  have hfil : ([⟨t0, 2/5, 0⟩, ⟨t1, 13/20, 0⟩, ⟨t2, 7/10, 0⟩,
      ⟨t3, 1/2, 0⟩] : List LogEntry).filter (fun e => decide (e.bid ≥ 3/5)) =
      [⟨t1, 13/20, 0⟩, ⟨t2, 7/10, 0⟩] := by
    simp [List.filter_cons, h1, h2, h3, h4]
    norm_num
  exact cwd_of_head?_getLast? (by rw [hfil]; rfl) (by rw [hfil]; rfl)

/-- C2, witness: a concrete log with two qualifying entries one hour apart
has a window duration of 60 minutes. -/
theorem window_duration_spec_witness :
    compute_window_duration [⟨10, 2, 0⟩, ⟨3610, 2, 0⟩] 1 = 60 := by
  have h := window_duration_spec.2.2.1 [⟨10, 2, 0⟩, ⟨3610, 2, 0⟩] 1
    ⟨10, 2, 0⟩ ⟨3610, 2, 0⟩ (by decide) (by decide)
  rw [h]
  norm_num

/-- C10. When the qualifying entries of the log appear in non-decreasing
timestamp order, the window duration is non-negative, and a log with
exactly one qualifying entry yields duration 0; first and last are taken
by list position, so the non-negativity guarantee is conditional on the
chronological-order hypothesis. -/
theorem window_duration_nonneg :
    (∀ (log : List LogEntry) (th : ℚ),
        ((log.filter (fun e => decide (e.bid ≥ th))).map LogEntry.ts).Sorted (· ≤ ·) →
        0 ≤ compute_window_duration log th) ∧
    (∀ (log : List LogEntry) (th : ℚ) (e : LogEntry),
        log.filter (fun e => decide (e.bid ≥ th)) = [e] →
        compute_window_duration log th = 0) := by
  constructor
  · intro log th hs
    cases hfl : log.filter (fun e => decide (e.bid ≥ th)) with
    | nil => rw [cwd_of_filter_nil hfl]
    | cons g rest =>
      have hne : g :: rest ≠ ([] : List LogEntry) := List.cons_ne_nil g rest
      have hf : (log.filter (fun e => decide (e.bid ≥ th))).head? = some g := by
        rw [hfl]; rfl
      have hl : (log.filter (fun e => decide (e.bid ≥ th))).getLast? =
          some ((g :: rest).getLast hne) := by
        rw [hfl]; exact List.getLast?_eq_getLast_of_ne_nil hne
      rw [cwd_of_head?_getLast? hf hl]
      rw [hfl] at hs
      have hmap : (List.map LogEntry.ts (g :: rest)).getLast? =
          some ((g :: rest).getLast hne).ts := by
        rw [List.getLast?_map, List.getLast?_eq_getLast_of_ne_nil hne]
        rfl
      have hts : g.ts ≤ ((g :: rest).getLast hne).ts :=
        sorted_rat_head?_le_getLast? hs rfl hmap
      apply div_nonneg _ (by norm_num)
      exact sub_nonneg.mpr hts
  · intro log th e hfl
    have hf : (log.filter (fun e => decide (e.bid ≥ th))).head? = some e := by
      rw [hfl]; rfl
    have hl : (log.filter (fun e => decide (e.bid ≥ th))).getLast? = some e := by
      rw [hfl]; rfl
    rw [cwd_of_head?_getLast? hf hl]
    simp

/-- C10, witness: a log with a single qualifying entry is chronologically
ordered and has duration 0, which is non-negative. -/
theorem window_duration_nonneg_witness :
    0 ≤ compute_window_duration [⟨3, 2, 0⟩] 1 ∧
      compute_window_duration [⟨3, 2, 0⟩] 1 = 0 :=
  ⟨window_duration_nonneg.1 [⟨3, 2, 0⟩] 1 (by decide),
   window_duration_nonneg.2 [⟨3, 2, 0⟩] 1 ⟨3, 2, 0⟩ (by decide)⟩

/-! ## Claims about evaluator-log parsing -/

/-- C8. An entry whose timestamp or bid is null is skipped and the rest of
the log is still processed, while a well-formed entry is parsed into its
timestamp, bid, and ask defaulted to 0 when absent; parsing is a total
function, so malformed entries never abort the record. -/
theorem parse_log_skips_nulls :
    (∀ (l1 l2 : List RawEntry) (e : RawEntry),
        e.ts = none ∨ e.bid = none →
        parse_evaluator_log (some (l1 ++ e :: l2)) =
          parse_evaluator_log (some (l1 ++ l2))) ∧
    (∀ (e : RawEntry) (t b : ℚ), e.ts = some t → e.bid = some b →
        parse_evaluator_log (some [e]) = [⟨t, b, e.ask.getD 0⟩]) := by
  constructor
  · intro l1 l2 e h
    rcases h with h | h <;>
      simp [parse_evaluator_log, List.filterMap_append, List.filterMap_cons, h]
  · intro e t b ht hb
    simp [parse_evaluator_log, List.filterMap_cons, ht, hb]

/-- C8, witness: a log with a null-timestamp entry followed by a well-formed
entry parses to just the well-formed entry. -/
theorem parse_log_skips_nulls_witness :
    parse_evaluator_log
        (some [⟨none, some 1, none⟩, ⟨some 5, some (1/2), some (3/4)⟩]) =
      [⟨5, 1/2, 3/4⟩] := by
  have h1 := parse_log_skips_nulls.1 [] [⟨some 5, some (1/2), some (3/4)⟩]
    ⟨none, some 1, none⟩ (Or.inl rfl)
  have h2 := parse_log_skips_nulls.2 ⟨some 5, some (1/2), some (3/4)⟩ 5 (1/2) rfl rfl
  exact h1.trans h2

/-! ## Claims about the time-based partitioner -/

/-- C3. A record is in the training partition exactly when its creation
timestamp is strictly before the fixed cutoff and in the evaluation
partition exactly when it is at or after the cutoff; the two partitions
are disjoint and together they are a permutation of the full filtered
set. -/
theorem win_split_partition (rows : List FeatOpp) :
    (∀ r : FeatOpp, r ∈ win_train rows ↔
      r ∈ rows ∧ r.raw.created_at < split_date) ∧
    (∀ r : FeatOpp, r ∈ win_test rows ↔
      r ∈ rows ∧ split_date ≤ r.raw.created_at) ∧
    (∀ r : FeatOpp, ¬(r ∈ win_train rows ∧ r ∈ win_test rows)) ∧
    List.Perm (win_train rows ++ win_test rows) rows := by
  have hmem1 : ∀ r : FeatOpp, r ∈ win_train rows ↔
      r ∈ rows ∧ r.raw.created_at < split_date := by
    intro r
    simp [win_train, List.mem_filter]
  have hmem2 : ∀ r : FeatOpp, r ∈ win_test rows ↔
      r ∈ rows ∧ split_date ≤ r.raw.created_at := by
    intro r
    simp [win_test, List.mem_filter, ge_iff_le]
  refine ⟨hmem1, hmem2, ?_, ?_⟩
  · rintro r ⟨h1, h2⟩
    exact absurd ((hmem2 r).mp h2).2 (not_le.mpr ((hmem1 r).mp h1).2)
  · have hpred : win_test rows =
        rows.filter (fun r => !(decide (r.raw.created_at < split_date))) := by
      unfold win_test
      apply List.filter_congr
      intro r _
      rw [← decide_not, decide_eq_decide]
      exact ⟨fun h => not_lt.mpr h, fun h => not_lt.mp h⟩
    rw [hpred]
    exact List.filter_append_perm _ rows

/-- C3, witness: with one row created before the cutoff and one at the
cutoff, the first lands in the training partition, the second in the
evaluation partition, and the first is not in both. -/
theorem win_split_partition_witness :
    mkFeatOpp 0 ∈ win_train [mkFeatOpp 0, mkFeatOpp 1771545600] ∧
      mkFeatOpp 1771545600 ∈ win_test [mkFeatOpp 0, mkFeatOpp 1771545600] ∧
      ¬(mkFeatOpp 0 ∈ win_train [mkFeatOpp 0, mkFeatOpp 1771545600] ∧
        mkFeatOpp 0 ∈ win_test [mkFeatOpp 0, mkFeatOpp 1771545600]) := by
  have h := win_split_partition [mkFeatOpp 0, mkFeatOpp 1771545600]
  refine ⟨(h.1 _).mpr ⟨by simp, ?_⟩, (h.2.1 _).mpr ⟨by simp, ?_⟩, h.2.2.1 _⟩
  · show (mkFeatOpp 0).raw.created_at < split_date
    simp [mkFeatOpp, mkRawOpp, split_date]
  · show split_date ≤ (mkFeatOpp 1771545600).raw.created_at
    simp [mkFeatOpp, mkRawOpp, split_date]

/-! ## Claims about the minimum-sample guard -/

/-- C4, counterexample. With 3 training rows, fewer than the minimum of 5,
the win-predictor pipeline still fits the model: its main has no
sample-count guard, so the claim that both pipelines skip fitting on
insufficient data fails for the win predictor. -/
theorem winPredictor_no_min_sample_guard :
    winPredictor_model_stage 3 = FitOutcome.fitted ∧ 3 < 5 :=
  ⟨rfl, by norm_num⟩

/-- C4, amended. Only the peak-exit pipeline guards model fitting: with
fewer than 5 rows after feature cleaning it skips fitting and emits the
too-few-samples notice, and with at least 5 rows it fits; the win
predictor fits unconditionally, whatever its partition sizes. -/
theorem min_sample_guard_only_peak_exit (n : ℕ) :
    (n < 5 → peakExit_model_stage n = FitOutcome.skipped
      "Too few samples for meaningful ML - skipping model training.") ∧
    (5 ≤ n → peakExit_model_stage n = FitOutcome.fitted) ∧
    winPredictor_model_stage n = FitOutcome.fitted := by
  refine ⟨fun h => ?_, fun h => ?_, rfl⟩
  · simp [peakExit_model_stage, h]
  · simp [peakExit_model_stage, Nat.not_lt.mpr h]

/-- C4, witness: the peak-exit stage skips at 3 rows and fits at 7, while
the win-predictor stage fits at 3 rows. -/
theorem min_sample_guard_only_peak_exit_witness :
    peakExit_model_stage 3 = FitOutcome.skipped
        "Too few samples for meaningful ML - skipping model training." ∧
      peakExit_model_stage 7 = FitOutcome.fitted ∧
      winPredictor_model_stage 3 = FitOutcome.fitted :=
  ⟨(min_sample_guard_only_peak_exit 3).1 (by norm_num),
   (min_sample_guard_only_peak_exit 7).2.1 (by norm_num),
   (min_sample_guard_only_peak_exit 3).2.2⟩

/-! ## Claims about the losing-trade loader -/

/-- C5, counterexample. The loader query only requires entry_ask to be
non-null, not positive: a record with entry_ask equal to zero satisfies
every condition of the query and is admitted, so admitted records do not
all have entry_ask greater than zero. -/
theorem loader_admits_zero_entry_ask :
    get_losing_trades [zero_ask_trade] = [zero_ask_trade] ∧
      zero_ask_trade.entry_ask = some 0 ∧ ¬((0 : ℚ) < 0) :=
  ⟨by decide, rfl, by norm_num⟩

theorem loader_pred_fields {r : TradeRecord}
    (hp : get_losing_trades_pred r = true) :
    r.entry_ask.isSome = true ∧ r.max_price_seen.isSome = true ∧
      r.pnl.isSome = true := by
  unfold get_losing_trades_pred at hp
  simp only [Bool.and_eq_true] at hp
  exact ⟨hp.1.2, hp.1.1.2, hp.2⟩

/-- C5, amended. Every record admitted by the loss-analysis loader has
entry_ask, max_price_seen and pnl non-null, so the peak-multiple division
is always applied to present values and produces a value; entry_ask equal
to zero, however, is not excluded upstream. -/
theorem loader_guarantees_nonnull_ask (rows : List TradeRecord)
    (r : TradeRecord) (hr : r ∈ get_losing_trades rows) :
    r.entry_ask ≠ none ∧ r.max_price_seen ≠ none ∧ r.pnl ≠ none ∧
      (peak_multiple r).isSome = true := by
  have hp := loader_pred_fields (List.mem_filter.mp hr).2
  obtain ⟨ha, hm, hpn⟩ := hp
  obtain ⟨a, hae⟩ := Option.isSome_iff_exists.mp ha
  obtain ⟨m, hme⟩ := Option.isSome_iff_exists.mp hm
  refine ⟨Option.isSome_iff_ne_none.mp ha, Option.isSome_iff_ne_none.mp hm,
    Option.isSome_iff_ne_none.mp hpn, ?_⟩
  simp [peak_multiple, hae, hme]

/-- C5, witness: the admitted zero-ask record indeed has all three fields
non-null and a present peak multiple. -/
theorem loader_guarantees_nonnull_ask_witness :
    zero_ask_trade.entry_ask ≠ none ∧
      zero_ask_trade.max_price_seen ≠ none ∧ zero_ask_trade.pnl ≠ none ∧
      (peak_multiple zero_ask_trade).isSome = true :=
  loader_guarantees_nonnull_ask [zero_ask_trade] zero_ask_trade (by decide)

/-! ## Claims about calibration binning -/

theorem calibrationBin_covers (p : ℚ) (h0 : 0 ≤ p) (h1 : p ≤ 1) :
    ∃ j, j < 10 ∧ calibrationBin p = some j := by
  have hnn : ¬ (p < 0) := not_lt.mpr h0
  by_cases c0 : p ≤ 1/10
  · exact ⟨0, by norm_num, by unfold calibrationBin; rw [if_neg hnn, if_pos c0]⟩
  by_cases c1 : p ≤ 2/10
  · exact ⟨1, by norm_num,
      by unfold calibrationBin; rw [if_neg hnn, if_neg c0, if_pos c1]⟩
  by_cases c2 : p ≤ 3/10
  · exact ⟨2, by norm_num,
      by unfold calibrationBin; rw [if_neg hnn, if_neg c0, if_neg c1, if_pos c2]⟩
  by_cases c3 : p ≤ 4/10
  · exact ⟨3, by norm_num,
      by unfold calibrationBin
         rw [if_neg hnn, if_neg c0, if_neg c1, if_neg c2, if_pos c3]⟩
  by_cases c4 : p ≤ 5/10
  · exact ⟨4, by norm_num,
      by unfold calibrationBin
         rw [if_neg hnn, if_neg c0, if_neg c1, if_neg c2, if_neg c3, if_pos c4]⟩
  by_cases c5 : p ≤ 6/10
  · exact ⟨5, by norm_num,
      by unfold calibrationBin
         rw [if_neg hnn, if_neg c0, if_neg c1, if_neg c2, if_neg c3, if_neg c4,
           if_pos c5]⟩
  by_cases c6 : p ≤ 7/10
  · exact ⟨6, by norm_num,
      by unfold calibrationBin
         rw [if_neg hnn, if_neg c0, if_neg c1, if_neg c2, if_neg c3, if_neg c4,
           if_neg c5, if_pos c6]⟩
  by_cases c7 : p ≤ 8/10
  · exact ⟨7, by norm_num,
      by unfold calibrationBin
         rw [if_neg hnn, if_neg c0, if_neg c1, if_neg c2, if_neg c3, if_neg c4,
           if_neg c5, if_neg c6, if_pos c7]⟩
  by_cases c8 : p ≤ 9/10
  · exact ⟨8, by norm_num,
      by unfold calibrationBin
         rw [if_neg hnn, if_neg c0, if_neg c1, if_neg c2, if_neg c3, if_neg c4,
           if_neg c5, if_neg c6, if_neg c7, if_pos c8]⟩
  · exact ⟨9, by norm_num,
      by unfold calibrationBin
         rw [if_neg hnn, if_neg c0, if_neg c1, if_neg c2, if_neg c3, if_neg c4,
           if_neg c5, if_neg c6, if_neg c7, if_neg c8, if_pos h1]⟩

theorem binCount_cons (p : ℚ) (t : List ℚ) (i : ℕ) :
    binCount (p :: t) i =
      (if calibrationBin p == some i then 1 else 0) + binCount t i := by
  by_cases hc : (calibrationBin p == some i) = true
  · simp [binCount, List.filter_cons, hc]
    omega
  · simp [binCount, List.filter_cons, hc]

/-- C6. When every predicted probability lies in the unit interval, as
predict_proba guarantees, the ten equal-width calibration bins partition
the predictions: the bin counts sum exactly to the number of
predictions. -/
theorem calibration_bins_partition (preds : List ℚ)
    (h : ∀ p ∈ preds, 0 ≤ p ∧ p ≤ 1) :
    (Finset.range 10).sum (binCount preds) = preds.length := by
  induction preds with
  | nil => simp [binCount]
  | cons p t ih =>
    have hp := h p (List.mem_cons_self p t)
    have ht : ∀ q ∈ t, 0 ≤ q ∧ q ≤ 1 :=
      fun q hq => h q (List.mem_cons_of_mem p hq)
    obtain ⟨j, hj, hbin⟩ := calibrationBin_covers p hp.1 hp.2
    have hfun : (fun i => if calibrationBin p == some i then 1 else 0) =
        (fun i => if j = i then 1 else 0) := by
      funext i
      rw [hbin]
      by_cases hji : j = i
      · simp [hji]
      · simp [hji]
    have hsum1 : (Finset.range 10).sum
        (fun i => if calibrationBin p == some i then 1 else 0) = 1 := by
      rw [hfun, Finset.sum_ite_eq]
      simp [Finset.mem_range, hj]
    have hcons : ∀ i ∈ Finset.range 10, binCount (p :: t) i =
        (if calibrationBin p == some i then 1 else 0) + binCount t i :=
      fun i _ => binCount_cons p t i
    rw [Finset.sum_congr rfl hcons, Finset.sum_add_distrib, hsum1, ih ht]
    simp [Nat.add_comm]

/-- C6, witness: three predictions at 0, 1 and one half give bin counts
summing to 3. -/
theorem calibration_bins_partition_witness :
    (Finset.range 10).sum (binCount [0, 1, 1/2]) = 3 :=
  calibration_bins_partition [0, 1, 1/2] (by
    intro p hp
    simp at hp
    rcases hp with h | h | h <;> subst h <;> norm_num)

/-! ## Claims about the null-row policy -/

/-- C7. In both pipelines, a row survives the pre-fit dropna exactly when
every model feature of the row is non-null: rows with a null in any model
feature are dropped entirely, rows with all model features present are
retained. -/
theorem dropna_drops_exactly_null_rows :
    (∀ (rows : List FeatOpp) (r : FeatOpp),
        r ∈ win_dropna rows ↔ r ∈ rows ∧ ∀ v ∈ FEATURES_of r, v ≠ none) ∧
    (∀ (rows : List PeakModelRow) (r : PeakModelRow),
        r ∈ peak_dropna rows ↔ r ∈ rows ∧ ∀ v ∈ feat_cols_of r, v ≠ none) := by
  constructor
  · intro rows r
    simp [win_dropna, List.mem_filter, List.all_eq_true,
      Option.isSome_iff_ne_none]
  · intro rows r
    simp [peak_dropna, List.mem_filter, List.all_eq_true,
      Option.isSome_iff_ne_none]

/-- C7, witness: a fully non-null engineered row is retained by the
win-predictor dropna, and a fully non-null peak-exit model row is retained
by the peak-exit dropna. -/
theorem dropna_drops_exactly_null_rows_witness :
    mkFeatOpp 0 ∈ win_dropna [mkFeatOpp 0] ∧
      sample_peak_row ∈ peak_dropna [sample_peak_row] := by
  exact ⟨(dropna_drops_exactly_null_rows.1 [mkFeatOpp 0] (mkFeatOpp 0)).mpr
      ⟨by simp, by decide⟩,
    (dropna_drops_exactly_null_rows.2 [sample_peak_row] sample_peak_row).mpr
      ⟨by simp, by decide⟩⟩

/-! ## Claims about feature-engineering determinism -/

/-- C9. The Feature Engineer is a pure function of its input batch: two
runs on the same batch produce identical engineered rows and identical
city-code mappings, and the original columns of the input batch are
recoverable unchanged from the output, so the input is not mutated. -/
theorem engineer_features_deterministic (df1 df2 : List RawOpp)
    (h : df1 = df2) :
    engineer_features df1 = engineer_features df2 ∧
      (engineer_features df1).1.map FeatOpp.raw = df1 := by
  subst h
  refine ⟨rfl, ?_⟩
  show List.map FeatOpp.raw (engineer_features df1).1 = df1
  conv_rhs => rw [← List.map_id df1]
  unfold engineer_features
  rw [List.map_map]
  apply List.map_congr_left
  intro r _
  rfl

/-- C9, witness: a concrete one-row batch engineered twice gives equal
results, and projecting the raw columns returns the batch. -/
theorem engineer_features_deterministic_witness :
    engineer_features [mkRawOpp 0] = engineer_features [mkRawOpp 0] ∧
      (engineer_features [mkRawOpp 0]).1.map FeatOpp.raw = [mkRawOpp 0] :=
  engineer_features_deterministic [mkRawOpp 0] [mkRawOpp 0] rfl

end WhaleTracker
